import Mathlib

/-!
Shallow embedding of the real-time collaborative spreadsheet coordinator.

Server side (WebSocket message handler over a Redis-like store) is embedded
from the server source; client side (command dispatcher with undo/redo) is
embedded from `src/lib/Spreadsheet/commands/useDispatcher.ts`.

Conventions:
- Redis hashes are association lists `List (String × α)` with upsert
  (`hsetAssoc`), lookup (`hgetAssoc`) and field deletion (`hdelAssoc`).
- A lock key written with `SETEX key ttl value` is an entry carrying its
  absolute expiry time; reads that in Redis would miss an expired key filter on
  `now < expiresAt`.
- Optional wire fields are `Option`; JavaScript string truthiness
  (`!s` is true for `undefined` and `""`) is `truthyStr`.
- A WebSocket is a `Conn` with a unique `id` standing for object identity.
-/

namespace Spreadsheet

/-- JavaScript string truthiness: a present, non-empty string. -/
def truthyStr : Option String → Bool
  | none => false
  | some s => s ≠ ""

/-- Redis HSET on a hash modelled as an association list: replace the value if
the field exists, otherwise append the new field. -/
def hsetAssoc (l : List (String × α)) (k : String) (v : α) : List (String × α) :=
  if l.any (fun p => p.1 == k) then
    l.map (fun p => if p.1 == k then (k, v) else p)
  else
    l ++ [(k, v)]

/-- Redis HGET: the value stored at a field, if any. -/
def hgetAssoc (l : List (String × α)) (k : String) : Option α :=
  (l.find? (fun p => p.1 == k)).map (fun p => p.2)

/-- Redis HDEL: remove a field. -/
def hdelAssoc (l : List (String × α)) (k : String) : List (String × α) :=
  l.filter (fun p => p.1 != k)

/-- The cell key built by the handler: `row-col` (template literal in source). -/
def cellKey (row col : Nat) : String :=
  toString row ++ "-" ++ toString col

/-- First component of a `row-col` key, as `parseInt` of the part before `-`. -/
def parseRow (k : String) : Nat :=
  match k.splitOn "-" with
  | [] => 0
  | r :: _ => (r.toNat?).getD 0

/-- Second component of a `row-col` key. -/
def parseCol (k : String) : Nat :=
  match k.splitOn "-" with
  | _ :: c :: _ => (c.toNat?).getD 0
  | _ => 0

/-- Whether the first list starts with the second. -/
def startsWithCL : List Char → List Char → Bool
  | _, [] => true
  | [], _ :: _ => false
  | c :: cs, p :: ps => c == p && startsWithCL cs ps

/-- Replace the first occurrence of `pat` by `repl` in a character list. -/
def replaceFirstCL (pat repl : List Char) : List Char → List Char
  | [] => []
  | c :: cs =>
    if startsWithCL (c :: cs) pat then repl ++ List.drop pat.length (c :: cs)
    else c :: replaceFirstCL pat repl cs

/-- JavaScript `String.prototype.replace` with a string pattern: replace only
the first occurrence (an empty pattern matches at the start). -/
def replaceFirst (s pat repl : String) : String :=
  if pat.isEmpty then ⟨repl.data ++ s.data⟩
  else ⟨replaceFirstCL pat.data repl.data s.data⟩

/-- Color derived from the user name: sum of character codes, hue is that sum
mod 360, rendered as an HSL string (source: `getUserColor`). -/
def getUserColor (userName : String) : String :=
  let hash := userName.data.foldl (fun acc ch => acc + ch.toNat) 0
  let hue := hash % 360
  "hsl(" ++ toString hue ++ ", 70%, 60%)"

/-- A local WebSocket connection with the metadata the server stores on it.
`id` stands for JavaScript object identity; `isOpen` is
`readyState === WebSocket.OPEN`. -/
structure Conn where
  id : Nat
  userId : Option String
  userName : Option String
  spreadsheetId : Option String
  isOpen : Bool
deriving DecidableEq, Repr

/-- A stored lock entry: `SETEX lockKey 3600 userId` keeps the owner and the
absolute expiry instant. -/
structure LockEntry where
  owner : String
  expiresAt : Nat
deriving DecidableEq, Repr

/-- A stored selection, the JSON object the server keeps per user id. -/
structure SelectionData where
  userName : String
  row : Nat
  col : Nat
  color : String
deriving DecidableEq, Repr

/-- Events the server sends to clients (and, for some, publishes). -/
inductive ServerEvent where
  | initialData (cells : List (Nat × Nat × String))
      (locks : List (Nat × Nat × String))
      (activeUsers : List (String × String))
      (selections : List (String × String × Nat × Nat × String))
  | cellUpdated (row col : Nat) (value : Option String)
  | cellSelected (userId userName : String) (row col : Nat) (color : String)
  | cellLocked (row col : Nat) (userId : String)
  | cellUnlocked (row col : Nat)
  | userJoined (userId userName : Option String)
  | userLeft (userId : String)
  | pong
deriving DecidableEq, Repr

/-- A message on the Redis pub/sub channel: the event plus the `fromServer`
flag the origin instance attaches. -/
structure PubMsg where
  event : ServerEvent
  fromServer : Bool
deriving DecidableEq, Repr

/-- The client → server wire messages of the `Message` interface. The source
union has exactly `join`, `updateCell`, `selectCell`, `lockCell`,
`unlockCell`, `ping`; `leave` is included to model that the handler switch has
no case for it. -/
inductive ClientMsg where
  | join (spreadsheetId userId userName : Option String)
  | updateCell (spreadsheetId : Option String) (row col : Option Nat)
      (value : Option String)
  | selectCell (spreadsheetId userId userName : Option String)
      (row col : Option Nat)
  | lockCell (spreadsheetId : Option String) (row col : Option Nat)
      (userId : Option String)
  | unlockCell (spreadsheetId : Option String) (row col : Option Nat)
  | ping
  | leave (spreadsheetId userId : Option String)
deriving DecidableEq, Repr

/-- The per-room slice of the Redis store: the cells hash, the active-users
hash, the selections hash, and the per-cell lock keys. -/
structure RoomStore where
  cells : List (String × String)
  activeUsers : List (String × String)
  selections : List (String × SelectionData)
  locks : List (String × LockEntry)
deriving DecidableEq, Repr

/-- Server state for one room: the store slice plus the local connection set
`clients.get(spreadsheetId)`. -/
structure ServerState where
  store : RoomStore
  roomClients : List Conn
deriving DecidableEq, Repr

/-- `roomClients.add(ws)` on a JS `Set`: adding an object already present (same
identity) keeps the set; here, same `id` means same object, carrying the
mutated metadata. -/
def addConn (l : List Conn) (c : Conn) : List Conn :=
  if l.any (fun x => x.id == c.id) then
    l.map (fun x => if x.id == c.id then c else x)
  else
    l ++ [c]

/-- The broadcast loop `roomClients.forEach(client => if client !== ws &&
client.readyState === OPEN then client.send(ev))`. -/
def broadcastExcept (l : List Conn) (senderId : Nat) (ev : ServerEvent) :
    List (Nat × ServerEvent) :=
  (l.filter (fun c => c.id != senderId && c.isOpen)).map (fun c => (c.id, ev))

/-- The broadcast loop without sender exclusion (lock/unlock and the deferred
cleanup notify every open local connection, the requester included). -/
def broadcastAll (l : List Conn) (ev : ServerEvent) : List (Nat × ServerEvent) :=
  (l.filter (fun c => c.isOpen)).map (fun c => (c.id, ev))

/-- The `initialData` cells snapshot: every hash field except `initialized`,
keys parsed back into coordinates. -/
def cellsSnapshot (cells : List (String × String)) : List (Nat × Nat × String) :=
  (cells.filter (fun p => p.1 != "initialized")).map
    (fun p => (parseRow p.1, parseCol p.1, p.2))

/-- The `initialData` locks snapshot: `KEYS` only returns keys that have not
expired, each read back as owner plus parsed coordinates. -/
def locksSnapshot (locks : List (String × LockEntry)) (now : Nat) :
    List (Nat × Nat × String) :=
  (locks.filter (fun p => now < p.2.expiresAt)).map
    (fun p => (parseRow p.1, parseCol p.1, p.2.owner))

/-- The `initialData` active-users snapshot, excluding the joining user. -/
def activeUsersSnapshot (activeUsers : List (String × String))
    (selfId : Option String) : List (String × String) :=
  activeUsers.filter (fun p => selfId != some p.1)

/-- The `initialData` selections snapshot, excluding the joining user. -/
def selectionsSnapshot (selections : List (String × SelectionData))
    (selfId : Option String) : List (String × String × Nat × Nat × String) :=
  (selections.filter (fun p => selfId != some p.1)).map
    (fun p => (p.1, p.2.userName, p.2.row, p.2.col, p.2.color))

/-- One step of the WebSocket message handler switch, for the room named in
the message. Returns the new state, the events published on the room channel,
and the `(connection id, event)` sends. A message type with no case (and
`leave`, which is not in the union at all) falls through the switch and does
nothing. -/
def serverStep (st : ServerState) (sender : Conn) (msg : ClientMsg) (now : Nat) :
    ServerState × List PubMsg × List (Nat × ServerEvent) :=
  match msg with
  | .join sidO uidO unameO =>
    if truthyStr sidO then
      match sidO with
      | some sid =>
        let ws : Conn :=
          { sender with spreadsheetId := some sid, userId := uidO,
                        userName := unameO }
        let store₁ :=
          if truthyStr uidO && truthyStr unameO then
            { st.store with
                activeUsers :=
                  hsetAssoc st.store.activeUsers (uidO.getD "") (unameO.getD "") }
          else st.store
        let clients₁ := addConn st.roomClients ws
        let initial : ServerEvent :=
          .initialData (cellsSnapshot store₁.cells)
            (locksSnapshot store₁.locks now)
            (activeUsersSnapshot store₁.activeUsers uidO)
            (selectionsSnapshot store₁.selections uidO)
        let sends :=
          (ws.id, initial) ::
            broadcastExcept clients₁ ws.id (.userJoined uidO unameO)
        (⟨store₁, clients₁⟩, [], sends)
      | none => (st, [], [])
    else (st, [], [])
  | .updateCell sidO rowO colO valO =>
    match rowO, colO with
    | some row, some col =>
      if truthyStr sidO then
        let key := cellKey row col
        let store₁ := { st.store with
          cells := hsetAssoc st.store.cells key (valO.getD "") }
        let pubs := [⟨.cellUpdated row col valO, true⟩]
        let sends := broadcastExcept st.roomClients sender.id
          (.cellUpdated row col valO)
        (⟨store₁, st.roomClients⟩, pubs, sends)
      else (st, [], [])
    | _, _ => (st, [], [])
  | .lockCell sidO rowO colO uidO =>
    match rowO, colO, uidO with
    | some row, some col, some uid =>
      if truthyStr sidO && truthyStr (some uid) then
        let lockKey := cellKey row col
        let store₁ := { st.store with
          locks := hsetAssoc st.store.locks lockKey ⟨uid, now + 3600⟩ }
        let sends := broadcastAll st.roomClients (.cellLocked row col uid)
        (⟨store₁, st.roomClients⟩, [], sends)
      else (st, [], [])
    | _, _, _ => (st, [], [])
  | .unlockCell sidO rowO colO =>
    match rowO, colO with
    | some row, some col =>
      if truthyStr sidO then
        let lockKey := cellKey row col
        let store₁ := { st.store with
          locks := hdelAssoc st.store.locks lockKey }
        let sends := broadcastAll st.roomClients (.cellUnlocked row col)
        (⟨store₁, st.roomClients⟩, [], sends)
      else (st, [], [])
    | _, _ => (st, [], [])
  | .selectCell sidO uidO unameO rowO colO =>
    match rowO, colO with
    | some row, some col =>
      if truthyStr sidO && truthyStr uidO && truthyStr unameO then
        match uidO, unameO with
        | some uid, some uname =>
          let color := getUserColor uname
          let store₁ := { st.store with
            selections := hsetAssoc st.store.selections uid
              ⟨uname, row, col, color⟩ }
          let ev : ServerEvent := .cellSelected uid uname row col color
          let pubs := [⟨ev, true⟩]
          let sends := broadcastExcept st.roomClients sender.id ev
          (⟨store₁, st.roomClients⟩, pubs, sends)
        | _, _ => (st, [], [])
      else (st, [], [])
    | _, _ => (st, [], [])
  | .ping => (st, [], [(sender.id, .pong)])
  | .leave _ _ => (st, [], [])

/-- The synchronous part of the `close` handler: when the socket carried a
room and a user id, the connection is removed from the local room set
immediately (the store cleanup is deferred to `graceCleanup`). -/
def handleClose (st : ServerState) (ws : Conn) : ServerState :=
  if truthyStr ws.spreadsheetId && truthyStr ws.userId then
    { st with roomClients := st.roomClients.filter (fun c => c.id != ws.id) }
  else st

/-- The body of the 5-second grace timer scheduled by the `close` handler:
clean up presence and selection, publish and broadcast `userLeft` — but only
when the user is still registered and no live local connection carries the
same user id. -/
def graceCleanup (st : ServerState) (userId : String) :
    ServerState × List PubMsg × List (Nat × ServerEvent) :=
  let stillInRedis := (hgetAssoc st.store.activeUsers userId).isSome
  let hasReconnected := st.roomClients.any (fun c => c.userId == some userId)
  if stillInRedis && !hasReconnected then
    let store₁ := { st.store with
      activeUsers := hdelAssoc st.store.activeUsers userId,
      selections := hdelAssoc st.store.selections userId }
    (⟨store₁, st.roomClients⟩,
      [⟨.userLeft userId, true⟩],
      broadcastAll st.roomClients (.userLeft userId))
  else (st, [], [])

/-- The `redisSub` message handler: extract the room id from the channel name,
drop the internal `fromServer` flag, and send the event to every open local
connection of that room — the flag is only deleted, never used to skip. -/
def handleRedisMessage (clientsMap : List (String × List Conn))
    (channel : String) (msg : PubMsg) : List (Nat × ServerEvent) :=
  let sid := replaceFirst (replaceFirst channel "spreadsheet:" "") ":events" ""
  match hgetAssoc clientsMap sid with
  | some conns => broadcastAll conns msg.event
  | none => []

/-! Client-side command dispatcher (`useDispatcher.ts`). JavaScript arrays
push/pop at the tail; the stacks are modelled with the top at the head
(`push` is cons, `pop` takes the head, and `shift` — discarding the oldest
entry when the bound is exceeded — is `dropLast`). -/

/-- A cell as the grid renderer sees it. -/
structure CellView where
  row : Nat
  col : Nat
  value : String
deriving DecidableEq, Repr

/-- A grid position. -/
structure Position where
  row : Nat
  col : Nat
deriving DecidableEq, Repr

/-- The `HistoryCommand` union of the dispatcher. -/
inductive HistoryCommand where
  | cell_update (col row : Nat) (oldValue newValue : String)
  | selection (prevCell newCell : CellView)
deriving DecidableEq, Repr

/-- The `SpreadsheetAction` union of user intents. -/
inductive SpreadsheetAction where
  | SELECT_CELL (cell : CellView)
  | LOCK_CELL (pos : Position)
  | UNLOCK_CELL (pos : Position)
  | SET_DRAFT_VALUE (value : String)
  | COMMIT_CELL
  | DISCARD_DRAFT
  | UNDO
  | REDO
deriving DecidableEq, Repr

/-- The protocol messages the dispatcher hands to the socket layer
(`wsActions`). -/
inductive WsMsg where
  | updateCell (row col : Nat) (value : String)
  | selectCell (row col : Nat)
  | lockCell (pos : Position) (userId : String)
  | unlockCell (pos : Position) (userId : String)
deriving DecidableEq, Repr

/-- The local state the dispatcher reads and writes: the mirrored matrix
(column-major, reads default to `""`), the selection, the local lock, the
draft, and the two history stacks. -/
structure DispatcherState where
  matrix : Nat → Nat → String
  selectedCell : Option CellView
  localLockedCell : Option Position
  draftValue : Option String
  undoStack : List HistoryCommand
  redoStack : List HistoryCommand

/-- Point update of the mirrored matrix at `[col][row]`. -/
def matUpdate (m : Nat → Nat → String) (col row : Nat) (v : String) :
    Nat → Nat → String :=
  fun c r => if c = col ∧ r = row then v else m c r

/-- The history size bound (`MAX_HISTORY_SIZE`). -/
def MAX_HISTORY_SIZE : Nat := 50

/-- `pushToHistory`: push the command, discard the oldest entry past the
bound, and clear the redo stack. -/
def pushToHistory (st : DispatcherState) (cmd : HistoryCommand) :
    DispatcherState :=
  let undo := cmd :: st.undoStack
  let undo := if MAX_HISTORY_SIZE < undo.length then undo.dropLast else undo
  { st with undoStack := undo, redoStack := [] }

/-- One `dispatch` call: the new local state and the protocol messages sent,
in order. -/
def dispatch (st : DispatcherState) (action : SpreadsheetAction)
    (userId : String) : DispatcherState × List WsMsg :=
  match action with
  | .SELECT_CELL cell =>
    let st₁ :=
      match st.selectedCell with
      | some prevCell =>
        if prevCell.row ≠ cell.row ∨ prevCell.col ≠ cell.col then
          pushToHistory st (.selection prevCell cell)
        else st
      | none => st
    ({ st₁ with selectedCell := some cell },
      [.selectCell cell.row cell.col])
  | .LOCK_CELL pos =>
    let releaseMsgs :=
      match st.localLockedCell with
      | some prev => [WsMsg.unlockCell prev userId]
      | none => []
    ({ st with localLockedCell := some pos,
               draftValue := some (st.matrix pos.col pos.row) },
      releaseMsgs ++ [.lockCell pos userId])
  | .UNLOCK_CELL pos =>
    ({ st with localLockedCell := none }, [.unlockCell pos userId])
  | .SET_DRAFT_VALUE v =>
    ({ st with draftValue := some v }, [])
  | .COMMIT_CELL =>
    match st.selectedCell, st.draftValue with
    | some sc, some dv =>
      let oldValue := st.matrix sc.col sc.row
      let newValue := dv
      let st₁ :=
        if oldValue ≠ newValue then
          pushToHistory st (.cell_update sc.col sc.row oldValue newValue)
        else st
      ({ st₁ with
            matrix := matUpdate st.matrix sc.col sc.row newValue,
            selectedCell := some { sc with value := newValue },
            draftValue := none },
        [.updateCell sc.row sc.col newValue])
    | _, _ => ({ st with draftValue := none }, [])
  | .DISCARD_DRAFT =>
    ({ st with draftValue := none }, [])
  | .UNDO =>
    match st.undoStack with
    | [] => (st, [])
    | cmd :: rest =>
      let st₁ := { st with undoStack := rest,
                           redoStack := cmd :: st.redoStack }
      match cmd with
      | .cell_update col row oldValue _ =>
        ({ st₁ with matrix := matUpdate st.matrix col row oldValue },
          [.updateCell row col oldValue])
      | .selection prevCell _ =>
        ({ st₁ with selectedCell := some prevCell },
          [.selectCell prevCell.row prevCell.col])
  | .REDO =>
    match st.redoStack with
    | [] => (st, [])
    | cmd :: rest =>
      let st₁ := { st with redoStack := rest,
                           undoStack := cmd :: st.undoStack }
      match cmd with
      | .cell_update col row _ newValue =>
        ({ st₁ with matrix := matUpdate st.matrix col row newValue },
          [.updateCell row col newValue])
      | .selection _ newCell =>
        ({ st₁ with selectedCell := some newCell },
          [.selectCell newCell.row newCell.col])

/-- Run a sequence of dispatched actions, keeping only the state. -/
def runDispatch (st : DispatcherState) (acts : List SpreadsheetAction)
    (userId : String) : DispatcherState :=
  acts.foldl (fun s a => (dispatch s a userId).1) st

/-! Helper lemmas shared by the claim theorems. -/

theorem hget_hset_self (l : List (String × α)) (k : String) (v : α) :
    hgetAssoc (hsetAssoc l k v) k = some v := by
  unfold hsetAssoc
  by_cases h : l.any (fun p => p.1 == k)
  · rw [if_pos h]
    induction l with
    | nil => simp at h
    | cons p t ih =>
      rw [List.map_cons]
      by_cases hp : (p.1 == k) = true
      · have hhead : (if (p.1 == k) = true then (k, v) else p) = (k, v) := by
          rw [if_pos hp]
        rw [hhead]
        unfold hgetAssoc
        rw [List.find?_cons_of_pos _ (by simp)]
        rfl
      · have hhead : (if (p.1 == k) = true then (k, v) else p) = p := by
          rw [if_neg hp]
        rw [hhead]
        have ht : t.any (fun p => p.1 == k) = true := by
          simp only [List.any_cons, Bool.or_eq_true] at h
          rcases h with h | h
          · exact absurd h hp
          · exact h
        unfold hgetAssoc
        rw [List.find?_cons_of_neg _ (by simpa using hp)]
        exact ih ht
  · rw [if_neg h]
    induction l with
    | nil => simp [hgetAssoc]
    | cons p t ih =>
      simp only [List.any_cons, Bool.or_eq_true] at h
      push_neg at h
      rw [List.cons_append]
      unfold hgetAssoc
      rw [List.find?_cons_of_neg _ (by simpa using h.1)]
      exact ih (by simpa using h.2)

theorem hget_hdel_self (l : List (String × α)) (k : String) :
    hgetAssoc (hdelAssoc l k) k = none := by
  induction l with
  | nil => simp [hdelAssoc, hgetAssoc]
  | cons p t ih =>
    unfold hdelAssoc at ih ⊢
    rw [List.filter_cons]
    by_cases hp : (p.1 != k) = true
    · rw [if_pos hp]
      unfold hgetAssoc at ih ⊢
      rw [List.find?_cons_of_neg _ (by simpa [bne] using hp)]
      exact ih
    · rw [if_neg hp]
      exact ih

/-- Events delivered to the connection with id `i`, in order. -/
def sentTo (outs : List (Nat × ServerEvent)) (i : Nat) : List ServerEvent :=
  (outs.filter (fun p => p.1 == i)).map (fun p => p.2)

theorem sentTo_append (a b : List (Nat × ServerEvent)) (i : Nat) :
    sentTo (a ++ b) i = sentTo a i ++ sentTo b i := by
  simp [sentTo, List.filter_append]

theorem sentTo_cons_pos (p : Nat × ServerEvent) (outs : List (Nat × ServerEvent))
    (i : Nat) (h : p.1 = i) : sentTo (p :: outs) i = p.2 :: sentTo outs i := by
  unfold sentTo
  rw [List.filter_cons, if_pos (by simpa using h), List.map_cons]

theorem sentTo_cons_neg (p : Nat × ServerEvent) (outs : List (Nat × ServerEvent))
    (i : Nat) (h : p.1 ≠ i) : sentTo (p :: outs) i = sentTo outs i := by
  unfold sentTo
  rw [List.filter_cons, if_neg (by simpa using h)]

theorem broadcastExcept_cons (c : Conn) (t : List Conn) (s : Nat)
    (ev : ServerEvent) :
    broadcastExcept (c :: t) s ev =
      if (c.id != s && c.isOpen) = true
      then (c.id, ev) :: broadcastExcept t s ev
      else broadcastExcept t s ev := by
  unfold broadcastExcept
  rw [List.filter_cons]
  by_cases h : (c.id != s && c.isOpen) = true
  · rw [if_pos h, if_pos h, List.map_cons]
  · rw [if_neg h, if_neg h]

theorem sentTo_nil_of_forall (outs : List (Nat × ServerEvent)) (i : Nat)
    (h : ∀ p ∈ outs, p.1 ≠ i) : sentTo outs i = [] := by
  induction outs with
  | nil => rfl
  | cons p t ih =>
    rw [sentTo_cons_neg p t i (h p (List.mem_cons_self p t))]
    exact ih (fun q hq => h q (List.mem_cons_of_mem p hq))

theorem sentTo_broadcastExcept_not_mem (l : List Conn) (s : Nat)
    (ev : ServerEvent) (i : Nat) (h : i ∉ l.map Conn.id) :
    sentTo (broadcastExcept l s ev) i = [] := by
  apply sentTo_nil_of_forall
  intro p hp
  obtain ⟨c, hcf, rfl⟩ := List.mem_map.mp hp
  intro hci
  exact h (hci ▸ List.mem_map_of_mem Conn.id (List.mem_filter.mp hcf).1)

theorem sentTo_broadcastExcept_mem (l : List Conn) (s : Nat) (ev : ServerEvent)
    (d : Conn) (hnodup : (l.map Conn.id).Nodup) (hd : d ∈ l)
    (hopen : d.isOpen = true) (hne : d.id ≠ s) :
    sentTo (broadcastExcept l s ev) d.id = [ev] := by
  induction l with
  | nil => simp at hd
  | cons c t ih =>
    rw [List.map_cons, List.nodup_cons] at hnodup
    rw [broadcastExcept_cons]
    rcases List.mem_cons.mp hd with rfl | hdt
    · rw [if_pos (by simp [hne, hopen])]
      rw [sentTo_cons_pos _ _ _ rfl]
      rw [sentTo_broadcastExcept_not_mem t s ev d.id hnodup.1]
    · have hcd : c.id ≠ d.id := by
        intro hcontra
        exact hnodup.1 (hcontra ▸ List.mem_map_of_mem Conn.id hdt)
      by_cases hc : (c.id != s && c.isOpen) = true
      · rw [if_pos hc, sentTo_cons_neg _ _ _ hcd]
        exact ih hnodup.2 hdt
      · rw [if_neg hc]
        exact ih hnodup.2 hdt

theorem broadcastExcept_not_sender (l : List Conn) (s : Nat) (ev : ServerEvent) :
    s ∉ (broadcastExcept l s ev).map Prod.fst := by
  intro hmem
  simp only [broadcastExcept, List.map_map, List.mem_map] at hmem
  obtain ⟨c, hc, hcs⟩ := hmem
  have := (List.mem_filter.mp hc).2
  simp only [Bool.and_eq_true, bne_iff_ne] at this
  exact this.1 (by simpa using hcs)

theorem mem_broadcastAll (l : List Conn) (ev : ServerEvent) (c : Conn)
    (hc : c ∈ l) (hopen : c.isOpen = true) :
    (c.id, ev) ∈ broadcastAll l ev := by
  simp only [broadcastAll, List.mem_map]
  exact ⟨c, List.mem_filter.mpr ⟨hc, hopen⟩, rfl⟩

theorem broadcastAll_mem_inv (l : List Conn) (ev : ServerEvent) (p : Nat × ServerEvent)
    (hp : p ∈ broadcastAll l ev) :
    ∃ c ∈ l, c.isOpen = true ∧ p = (c.id, ev) := by
  simp only [broadcastAll, List.mem_map] at hp
  obtain ⟨c, hc, rfl⟩ := hp
  exact ⟨c, (List.mem_filter.mp hc).1, (List.mem_filter.mp hc).2, rfl⟩

theorem pushToHistory_undoStack (st : DispatcherState) (cmd : HistoryCommand) :
    (pushToHistory st cmd).undoStack =
      if MAX_HISTORY_SIZE < (cmd :: st.undoStack).length
      then (cmd :: st.undoStack).dropLast else cmd :: st.undoStack := rfl

theorem pushToHistory_redoStack (st : DispatcherState) (cmd : HistoryCommand) :
    (pushToHistory st cmd).redoStack = [] := rfl

/-- The lock table carried by an `initialData` event, if the event is one. -/
def initialLocks : ServerEvent → Option (List (Nat × Nat × String))
  | .initialData _ lks _ _ => some lks
  | _ => none

theorem store_branch_locks (c : Bool) (s : RoomStore)
    (au : List (String × String)) :
    (if c = true then { s with activeUsers := au } else s).locks = s.locks := by
  cases c <;> rfl

/-- The undo stack of a `pushToHistory` result always starts with the pushed
command (the bound discards the oldest entry, never the new one). -/
theorem pushToHistory_undoStack_cons (st : DispatcherState) (cmd : HistoryCommand) :
    ∃ rest, (pushToHistory st cmd).undoStack = cmd :: rest := by
  rw [pushToHistory_undoStack]
  by_cases h : MAX_HISTORY_SIZE < (cmd :: st.undoStack).length
  · rw [if_pos h]
    rcases hu : st.undoStack with _ | ⟨b, t⟩
    · rw [hu] at h
      simp [MAX_HISTORY_SIZE] at h
    · exact ⟨(b :: t).dropLast, List.dropLast_cons₂⟩
  · rw [if_neg h]
    exact ⟨st.undoStack, rfl⟩

/-- The history invariant: undo and redo stacks together never exceed the
bound. -/
def histInv (st : DispatcherState) : Prop :=
  st.undoStack.length + st.redoStack.length ≤ MAX_HISTORY_SIZE

theorem histInv_pushToHistory (st : DispatcherState) (cmd : HistoryCommand)
    (h : histInv st) : histInv (pushToHistory st cmd) := by
  unfold histInv at h ⊢
  rw [pushToHistory_undoStack, pushToHistory_redoStack]
  by_cases hlen : MAX_HISTORY_SIZE < (cmd :: st.undoStack).length
  · rw [if_pos hlen]
    have hd := List.length_dropLast (cmd :: st.undoStack)
    rw [List.length_cons] at hd hlen
    simp only [List.length_nil, Nat.add_zero]
    omega
  · rw [if_neg hlen]
    rw [List.length_cons] at hlen
    simp only [List.length_nil, Nat.add_zero, List.length_cons]
    omega

/-- A validated `updateCell` message: store write, publish, local broadcast
excluding the sender (no bounds check appears anywhere). -/
theorem updateCell_step (st : ServerState) (sender : Conn) (sid : String)
    (r c : Nat) (valO : Option String) (now : Nat) (hsid : sid ≠ "") :
    serverStep st sender (.updateCell (some sid) (some r) (some c) valO) now
      = (⟨{ st.store with
              cells := hsetAssoc st.store.cells (cellKey r c) (valO.getD "") },
            st.roomClients⟩,
         [⟨.cellUpdated r c valO, true⟩],
         broadcastExcept st.roomClients sender.id (.cellUpdated r c valO)) := by
  have hsidT : truthyStr (some sid) = true := by simp [truthyStr, hsid]
  simp only [serverStep]
  rw [if_pos hsidT]

/-! Claim theorems. -/

/-- C1 (counterexample): lock acquisition is not a conditional set. With an
unexpired lock on cell (0,0) owned by `alice` (expiry 1100, now 1000), a
`lockCell` from `bob` is not silently ignored: the stored lock owner changes
to `bob` and `cellLocked` is broadcast. -/
theorem lockCell_overwrites_unexpired_lock :
    let st : ServerState :=
      ⟨⟨[], [], [], [("0-0", ⟨"alice", 1100⟩)]⟩,
        [⟨1, some "bob", some "Bob", some "s", true⟩]⟩
    let res := serverStep st ⟨1, some "bob", some "Bob", some "s", true⟩
      (.lockCell (some "s") (some 0) (some 0) (some "bob")) 1000
    (1000 < 1100)
      ∧ hgetAssoc res.1.store.locks "0-0" = some ⟨"bob", 4600⟩
      ∧ res.2.2 = [(1, .cellLocked 0 0 "bob")] := by
  decide

/-- C1 (amended): `lockCell` is an unconditional set. Any request carrying a
room id, coordinates and a user id writes `{owner: userId, expiresAt:
now+3600}` over whatever lock entry existed — expired or not — publishes
nothing, and broadcasts `cellLocked` to every open local connection. -/
theorem lockCell_unconditional_set (st : ServerState) (sender : Conn)
    (sid uid : String) (row col now : Nat)
    (hsid : sid ≠ "") (huid : uid ≠ "") :
    let res := serverStep st sender
      (.lockCell (some sid) (some row) (some col) (some uid)) now
    hgetAssoc res.1.store.locks (cellKey row col) = some ⟨uid, now + 3600⟩
      ∧ res.2.1 = []
      ∧ res.2.2 = broadcastAll st.roomClients (.cellLocked row col uid)
      ∧ res.1.roomClients = st.roomClients := by
  have hcond : (truthyStr (some sid) && truthyStr (some uid)) = true := by
    simp [truthyStr, hsid, huid]
  simp only [serverStep]
  rw [if_pos hcond]
  exact ⟨hget_hset_self _ _ _, rfl, rfl, rfl⟩

/-- C1 witness: the amended theorem applied at a concrete input. -/
theorem lockCell_unconditional_set_witness :
    let st : ServerState := ⟨⟨[], [], [], []⟩,
      [⟨1, some "u9", some "Nina", some "s", true⟩]⟩
    let res := serverStep st ⟨1, some "u9", some "Nina", some "s", true⟩
      (.lockCell (some "s") (some 0) (some 0) (some "u9")) 7
    hgetAssoc res.1.store.locks (cellKey 0 0) = some ⟨"u9", 7 + 3600⟩
      ∧ res.2.1 = []
      ∧ res.2.2 = broadcastAll st.roomClients (.cellLocked 0 0 "u9")
      ∧ res.1.roomClients = st.roomClients :=
  lockCell_unconditional_set _ _ "s" "u9" 0 0 7 (by decide) (by decide)

/-- C2 (code bug): when the origin instance receives its own publication
echoed back (`fromServer = true`), the handler only deletes the flag and
still sends the event to every open local connection of the room — a second
delivery, now including the original sender — instead of skipping it as the
code's own comment says. -/
theorem redis_echo_rebroadcast_to_origin_clients :
    handleRedisMessage
      [("s1", [⟨1, some "u1", some "n1", some "s1", true⟩,
               ⟨2, some "u2", some "n2", some "s1", true⟩])]
      "spreadsheet:s1:events" ⟨.cellUpdated 0 0 (some "X"), true⟩
      = [(1, .cellUpdated 0 0 (some "X")), (2, .cellUpdated 0 0 (some "X"))] := by
  decide

/-- C6 (counterexample): a `leave` message from a joined connection changes
nothing — the connection stays registered, presence and selection stay in
the store, and nothing is broadcast (the claim requires immediate removal
and a `userLeft` broadcast). -/
theorem leave_ignored_at_joined_state :
    let st : ServerState :=
      ⟨⟨[], [("u1", "Alice")], [("u1", ⟨"Alice", 0, 0, "c"⟩)], []⟩,
        [⟨1, some "u1", some "Alice", some "s", true⟩,
         ⟨2, some "u2", some "Bob", some "s", true⟩]⟩
    serverStep st ⟨1, some "u1", some "Alice", some "s", true⟩
        (.leave (some "s") (some "u1")) 0 = (st, [], [])
      ∧ hgetAssoc st.store.activeUsers "u1" = some "Alice" := by
  decide

/-- C6 (amended): the server's message union has no `leave` type and the
handler switch has no case for it, so a `leave` message is ignored entirely:
state, registry, publishes and sends are all unchanged; removal happens only
through the disconnect path. -/
theorem leave_has_no_handler (st : ServerState) (sender : Conn)
    (sidO uidO : Option String) (now : Nat) :
    serverStep st sender (.leave sidO uidO) now = (st, [], []) := rfl

/-- C10: lock events are local-only. A validated `lockCell` or `unlockCell`
publishes nothing to the pub/sub channel and sends `cellLocked` /
`cellUnlocked` to exactly the open local connections of the room — the
requesting connection included — while a joining connection does receive the
current lock table in its `initialData` snapshot. -/
theorem lock_events_local_only (st : ServerState) (sender : Conn)
    (sid uid : String) (row col now : Nat)
    (hsid : sid ≠ "") (huid : uid ≠ "") :
    let resL := serverStep st sender
      (.lockCell (some sid) (some row) (some col) (some uid)) now
    let resU := serverStep st sender
      (.unlockCell (some sid) (some row) (some col)) now
    resL.2.1 = []
      ∧ resL.2.2 = broadcastAll st.roomClients (.cellLocked row col uid)
      ∧ (sender ∈ st.roomClients → sender.isOpen = true →
          (sender.id, ServerEvent.cellLocked row col uid) ∈ resL.2.2)
      ∧ (∀ p ∈ resL.2.2, ∃ c ∈ st.roomClients, c.isOpen = true
          ∧ p = (c.id, ServerEvent.cellLocked row col uid))
      ∧ resU.2.1 = []
      ∧ resU.2.2 = broadcastAll st.roomClients (.cellUnlocked row col)
      ∧ (∀ uidO unameO, ∃ p,
          ((serverStep st sender (.join (some sid) uidO unameO) now).2.2).head?
              = some p
            ∧ p.1 = sender.id
            ∧ initialLocks p.2 = some (locksSnapshot st.store.locks now)) := by
  have hcond : (truthyStr (some sid) && truthyStr (some uid)) = true := by
    simp [truthyStr, hsid, huid]
  have hsidT : truthyStr (some sid) = true := by
    simp [truthyStr, hsid]
  simp only [serverStep]
  rw [if_pos hcond, if_pos hsidT]
  refine ⟨rfl, rfl, ?_, ?_, rfl, rfl, ?_⟩
  · intro hmem hopen
    exact mem_broadcastAll st.roomClients _ sender hmem hopen
  · intro p hp
    exact broadcastAll_mem_inv st.roomClients _ p hp
  · intro uidO unameO
    rw [if_pos hsidT]
    refine ⟨_, rfl, rfl, ?_⟩
    simp only [initialLocks]
    rw [store_branch_locks]

/-- C3 (counterexample): a reconnect within the grace window still broadcasts
`userJoined`. With `u1` still registered in the active-users hash (grace
window not elapsed) and one other open connection in the room, a fresh join
by `u1` sends `userJoined` to the other connection — the join path never
checks whether the user was already present. -/
theorem reconnect_join_still_broadcasts_userJoined :
    let st : ServerState :=
      ⟨⟨[("initialized", "true")], [("u1", "Alice")], [], []⟩,
        [⟨2, some "u2", some "Bob", some "s", true⟩]⟩
    let res := serverStep st ⟨3, none, none, none, true⟩
      (.join (some "s") (some "u1") (some "Alice")) 0
    hgetAssoc st.store.activeUsers "u1" = some "Alice"
      ∧ res.2.2 = [(3, .initialData [] [] [] []),
                   (2, .userJoined (some "u1") (some "Alice"))] := by
  decide

/-- C3 (amended): the deferred cleanup behaves as claimed — a no-op when the
same user id has a live local connection when the timer fires, and exactly
one `userLeft` publish plus a broadcast to every open local connection
otherwise — but the reconnecting join does broadcast `userJoined` (see the
counterexample), so observers may see a redundant `userJoined` with no
`userLeft`. -/
theorem grace_cleanup_reconnect_noop (st : ServerState) (uid : String) :
    ((st.roomClients.any (fun c => c.userId == some uid)) = true →
      graceCleanup st uid = (st, [], []))
    ∧ ((st.roomClients.any (fun c => c.userId == some uid)) = false →
       (hgetAssoc st.store.activeUsers uid).isSome = true →
       graceCleanup st uid =
         (⟨{ st.store with
              activeUsers := hdelAssoc st.store.activeUsers uid,
              selections := hdelAssoc st.store.selections uid },
            st.roomClients⟩,
          [⟨.userLeft uid, true⟩],
          broadcastAll st.roomClients (.userLeft uid))
       ∧ hgetAssoc (graceCleanup st uid).1.store.activeUsers uid = none
       ∧ hgetAssoc (graceCleanup st uid).1.store.selections uid = none) := by
  constructor
  · intro h
    unfold graceCleanup
    rw [if_neg (by simp [h])]
  · intro h hredis
    unfold graceCleanup
    rw [if_pos (by simp [h, hredis])]
    exact ⟨rfl, hget_hdel_self _ _, hget_hdel_self _ _⟩

/-- C3 witness: both branches of the grace-cleanup theorem at concrete
states — a reconnected user (timer no-op) and a gone user (full cleanup). -/
theorem grace_cleanup_reconnect_noop_witness :
    (graceCleanup
        ⟨⟨[], [("u1", "Alice")], [], []⟩,
          [⟨1, some "u1", some "Alice", some "s", true⟩]⟩ "u1"
      = (⟨⟨[], [("u1", "Alice")], [], []⟩,
          [⟨1, some "u1", some "Alice", some "s", true⟩]⟩, [], []))
    ∧ (graceCleanup
          ⟨⟨[], [("u1", "Alice")], [("u1", ⟨"Alice", 0, 0, "c"⟩)], []⟩,
            [⟨2, some "u2", some "Bob", some "s", true⟩]⟩ "u1"
        = (⟨⟨[], hdelAssoc [("u1", "Alice")] "u1",
              hdelAssoc [("u1", ⟨"Alice", 0, 0, "c"⟩)] "u1", []⟩,
            [⟨2, some "u2", some "Bob", some "s", true⟩]⟩,
           [⟨.userLeft "u1", true⟩],
           broadcastAll [⟨2, some "u2", some "Bob", some "s", true⟩]
             (.userLeft "u1"))) :=
  ⟨(grace_cleanup_reconnect_noop
      ⟨⟨[], [("u1", "Alice")], [], []⟩,
        [⟨1, some "u1", some "Alice", some "s", true⟩]⟩ "u1").1 (by decide),
   ((grace_cleanup_reconnect_noop
      ⟨⟨[], [("u1", "Alice")], [("u1", ⟨"Alice", 0, 0, "c"⟩)], []⟩,
        [⟨2, some "u2", some "Bob", some "s", true⟩]⟩ "u1").2
      (by decide) (by decide)).1⟩

/-- C4: concurrent updates to the same cell are last-write-wins. Processing
`updateCell(r,c,x)` from one connection and then `updateCell(r,c,y)` from
another leaves the store holding `y`; each event is broadcast to exactly the
other open local connections, a third connection receives the two events in
arrival order, and neither sender is sent anything by its own update. -/
theorem updateCell_last_write_wins (st : ServerState) (c₁ c₂ : Conn)
    (sid : String) (r c : Nat) (x y : String) (n₁ n₂ : Nat)
    (hsid : sid ≠ "") (hnodup : (st.roomClients.map Conn.id).Nodup) :
    let res₁ := serverStep st c₁
      (.updateCell (some sid) (some r) (some c) (some x)) n₁
    let res₂ := serverStep res₁.1 c₂
      (.updateCell (some sid) (some r) (some c) (some y)) n₂
    hgetAssoc res₂.1.store.cells (cellKey r c) = some y
      ∧ res₁.2.2 = broadcastExcept st.roomClients c₁.id (.cellUpdated r c (some x))
      ∧ res₂.2.2 = broadcastExcept st.roomClients c₂.id (.cellUpdated r c (some y))
      ∧ (∀ d ∈ st.roomClients, d.isOpen = true → d.id ≠ c₁.id → d.id ≠ c₂.id →
          sentTo (res₁.2.2 ++ res₂.2.2) d.id
            = [.cellUpdated r c (some x), .cellUpdated r c (some y)])
      ∧ c₁.id ∉ res₁.2.2.map Prod.fst
      ∧ c₂.id ∉ res₂.2.2.map Prod.fst := by
  have hstep := fun (s : ServerState) (sd : Conn) (vO : Option String)
    (nw : Nat) => updateCell_step s sd sid r c vO nw hsid
  simp only [hstep]
  refine ⟨hget_hset_self _ _ _, trivial, trivial, ?_, ?_, ?_⟩
  · intro d hd hopen hne₁ hne₂
    rw [sentTo_append,
      sentTo_broadcastExcept_mem st.roomClients c₁.id _ d hnodup hd hopen hne₁,
      sentTo_broadcastExcept_mem st.roomClients c₂.id _ d hnodup hd hopen hne₂]
    rfl
  · exact broadcastExcept_not_sender _ _ _
  · exact broadcastExcept_not_sender _ _ _

/-- C4 witness: the last-write-wins theorem at a concrete room with three
open connections. -/
theorem updateCell_last_write_wins_witness :
    (let st : ServerState := ⟨⟨[], [], [], []⟩,
        [⟨1, some "a", none, some "s", true⟩,
         ⟨2, some "b", none, some "s", true⟩,
         ⟨3, some "c", none, some "s", true⟩]⟩
     let res₁ := serverStep st ⟨1, some "a", none, some "s", true⟩
       (.updateCell (some "s") (some 0) (some 0) (some "X")) 0
     let res₂ := serverStep res₁.1 ⟨2, some "b", none, some "s", true⟩
       (.updateCell (some "s") (some 0) (some 0) (some "Y")) 0
     hgetAssoc res₂.1.store.cells (cellKey 0 0) = some "Y"
       ∧ res₁.2.2 = broadcastExcept st.roomClients 1 (.cellUpdated 0 0 (some "X"))
       ∧ res₂.2.2 = broadcastExcept st.roomClients 2 (.cellUpdated 0 0 (some "Y"))
       ∧ (∀ d ∈ st.roomClients, d.isOpen = true → d.id ≠ 1 → d.id ≠ 2 →
           sentTo (res₁.2.2 ++ res₂.2.2) d.id
             = [.cellUpdated 0 0 (some "X"), .cellUpdated 0 0 (some "Y")])
       ∧ (1 : Nat) ∉ res₁.2.2.map Prod.fst
       ∧ (2 : Nat) ∉ res₂.2.2.map Prod.fst) :=
  updateCell_last_write_wins _ _ _ "s" 0 0 "X" "Y" 0 0 (by decide) (by decide)

/-- C5 (counterexample): no bounds validation exists. An `updateCell` at
row 1000, column 500 — far outside the 100×26 reference grid — is accepted:
the store gains the cell, the event is published and broadcast. -/
theorem updateCell_out_of_bounds_accepted :
    let st : ServerState := ⟨⟨[], [], [], []⟩,
      [⟨1, some "u1", none, some "s", true⟩,
       ⟨2, some "u2", none, some "s", true⟩]⟩
    let res := serverStep st ⟨1, some "u1", none, some "s", true⟩
      (.updateCell (some "s") (some 1000) (some 500) (some "Z")) 0
    (100 ≤ 1000 ∧ 26 ≤ 500)
      ∧ hgetAssoc res.1.store.cells (cellKey 1000 500) = some "Z"
      ∧ res.2.1 = [⟨.cellUpdated 1000 500 (some "Z"), true⟩]
      ∧ res.2.2 = [(2, .cellUpdated 1000 500 (some "Z"))] := by
  decide

/-- C5 (amended): `updateCell` validates only field presence, never bounds.
Any message carrying a non-empty room id and both coordinates is accepted,
whatever the coordinates: the value (empty string included, clearing the
cell to `""`) is stored and the event published and broadcast; a message
missing the room id, row, or column is dropped with no state change and no
output. -/
theorem updateCell_no_bounds_validation (st : ServerState) (sender : Conn)
    (sid : String) (r c : Nat) (valO : Option String) (now : Nat)
    (hsid : sid ≠ "") :
    (serverStep st sender (.updateCell (some sid) (some r) (some c) valO) now
      = (⟨{ st.store with
              cells := hsetAssoc st.store.cells (cellKey r c) (valO.getD "") },
            st.roomClients⟩,
         [⟨.cellUpdated r c valO, true⟩],
         broadcastExcept st.roomClients sender.id (.cellUpdated r c valO)))
    ∧ hgetAssoc (hsetAssoc st.store.cells (cellKey r c) (valO.getD ""))
        (cellKey r c) = some (valO.getD "")
    ∧ (∀ rowO colO v n,
        serverStep st sender (.updateCell none rowO colO v) n = (st, [], []))
    ∧ (∀ rowO colO v n,
        serverStep st sender (.updateCell (some "") rowO colO v) n = (st, [], []))
    ∧ (∀ sidO colO v n,
        serverStep st sender (.updateCell sidO none colO v) n = (st, [], []))
    ∧ (∀ sidO rowO v n,
        serverStep st sender (.updateCell sidO rowO none v) n = (st, [], [])) := by
  refine ⟨updateCell_step st sender sid r c valO now hsid,
    hget_hset_self _ _ _, ?_, ?_, ?_, ?_⟩
  · intro rowO colO v n
    cases rowO <;> cases colO <;> simp [serverStep, truthyStr]
  · intro rowO colO v n
    cases rowO <;> cases colO <;> simp [serverStep, truthyStr]
  · intro sidO colO v n
    cases colO <;> simp [serverStep]
  · intro sidO rowO v n
    cases rowO <;> simp [serverStep]

/-- C5 witness: the amended theorem at a concrete in-bounds cell with an
empty-string value, which is stored as `""` (clearing the cell). -/
theorem updateCell_no_bounds_validation_witness :
    (let st : ServerState := ⟨⟨[("0-0", "42")], [], [], []⟩,
        [⟨1, some "u1", none, some "s", true⟩]⟩
     let sender : Conn := ⟨1, some "u1", none, some "s", true⟩
     (serverStep st sender (.updateCell (some "s") (some 0) (some 0) (some "")) 3
        = (⟨{ st.store with
                cells := hsetAssoc st.store.cells (cellKey 0 0) ((some "").getD "") },
              st.roomClients⟩,
           [⟨.cellUpdated 0 0 (some ""), true⟩],
           broadcastExcept st.roomClients sender.id (.cellUpdated 0 0 (some ""))))
      ∧ hgetAssoc (hsetAssoc st.store.cells (cellKey 0 0) ((some "").getD ""))
          (cellKey 0 0) = some ((some "").getD "")
      ∧ (∀ rowO colO v n,
          serverStep st sender (.updateCell none rowO colO v) n = (st, [], []))
      ∧ (∀ rowO colO v n,
          serverStep st sender (.updateCell (some "") rowO colO v) n = (st, [], []))
      ∧ (∀ sidO colO v n,
          serverStep st sender (.updateCell sidO none colO v) n = (st, [], []))
      ∧ (∀ sidO rowO v n,
          serverStep st sender (.updateCell sidO rowO none v) n = (st, [], []))) :=
  updateCell_no_bounds_validation _ _ "s" 0 0 (some "") 3 (by decide)

/-- C10 witness: the lock-events theorem at a concrete one-connection room. -/
theorem lock_events_local_only_witness :
    (let st : ServerState := ⟨⟨[], [], [], []⟩,
        [⟨1, some "u", some "N", some "s", true⟩]⟩
     let sender : Conn := ⟨1, some "u", some "N", some "s", true⟩
     let resL := serverStep st sender
       (.lockCell (some "s") (some 2) (some 3) (some "u")) 5
     let resU := serverStep st sender
       (.unlockCell (some "s") (some 2) (some 3)) 5
     resL.2.1 = []
       ∧ resL.2.2 = broadcastAll st.roomClients (.cellLocked 2 3 "u")
       ∧ (sender ∈ st.roomClients → sender.isOpen = true →
           (sender.id, ServerEvent.cellLocked 2 3 "u") ∈ resL.2.2)
       ∧ (∀ p ∈ resL.2.2, ∃ c ∈ st.roomClients, c.isOpen = true
           ∧ p = (c.id, ServerEvent.cellLocked 2 3 "u"))
       ∧ resU.2.1 = []
       ∧ resU.2.2 = broadcastAll st.roomClients (.cellUnlocked 2 3)
       ∧ (∀ uidO unameO, ∃ p,
           ((serverStep st sender (.join (some "s") uidO unameO) 5).2.2).head?
               = some p
             ∧ p.1 = sender.id
             ∧ initialLocks p.2 = some (locksSnapshot st.store.locks 5))) :=
  lock_events_local_only _ _ "s" "u" 2 3 5 (by decide) (by decide)

/-- A `COMMIT_CELL` with a selection, a draft, and a changed value: history
push, matrix write, selection refresh, draft cleared, one `updateCell` sent. -/
theorem dispatch_commit (st : DispatcherState) (sc : CellView) (ov dv : String)
    (uid : String) (hsel : st.selectedCell = some sc)
    (hdraft : st.draftValue = some dv)
    (hov : st.matrix sc.col sc.row = ov) (hne : ov ≠ dv) :
    dispatch st .COMMIT_CELL uid =
      ({ pushToHistory st (.cell_update sc.col sc.row ov dv) with
          matrix := matUpdate st.matrix sc.col sc.row dv,
          selectedCell := some { sc with value := dv },
          draftValue := none },
        [.updateCell sc.row sc.col dv]) := by
  simp only [dispatch, hsel, hdraft, hov]
  rw [if_pos hne]

/-- An `UNDO` whose popped command is a cell update: the old value is written
back and sent as a plain `updateCell`. -/
theorem dispatch_undo_cell (st : DispatcherState) (col row : Nat)
    (ov nv : String) (rest : List HistoryCommand) (uid : String)
    (hundo : st.undoStack = .cell_update col row ov nv :: rest) :
    dispatch st .UNDO uid =
      ({ st with undoStack := rest,
                 redoStack := .cell_update col row ov nv :: st.redoStack,
                 matrix := matUpdate st.matrix col row ov },
        [.updateCell row col ov]) := by
  simp only [dispatch, hundo]

/-- A `REDO` whose popped command is a cell update: the new value is written
back and sent as a plain `updateCell`. -/
theorem dispatch_redo_cell (st : DispatcherState) (col row : Nat)
    (ov nv : String) (rest : List HistoryCommand) (uid : String)
    (hredo : st.redoStack = .cell_update col row ov nv :: rest) :
    dispatch st .REDO uid =
      ({ st with redoStack := rest,
                 undoStack := .cell_update col row ov nv :: st.undoStack,
                 matrix := matUpdate st.matrix col row nv },
        [.updateCell row col nv]) := by
  simp only [dispatch, hredo]

/-- C7: undo/redo round trip through the normal network path. After a
`COMMIT_CELL` that changed a cell from `old` to `new`, `UNDO` restores `old`
in the local matrix and sends a plain `updateCell` carrying `old`; an
immediate `REDO` restores `new` and sends `updateCell` carrying `new` — the
cell ends at its post-commit value and no distinct operation type is ever
sent. -/
theorem undo_redo_round_trip (st : DispatcherState) (sc : CellView)
    (oldV newV uid : String) (hsel : st.selectedCell = some sc)
    (hdraft : st.draftValue = some newV)
    (hold : st.matrix sc.col sc.row = oldV) (hne : oldV ≠ newV) :
    let r₁ := dispatch st .COMMIT_CELL uid
    let r₂ := dispatch r₁.1 .UNDO uid
    let r₃ := dispatch r₂.1 .REDO uid
    r₁.1.matrix sc.col sc.row = newV
      ∧ r₁.2 = [.updateCell sc.row sc.col newV]
      ∧ r₂.1.matrix sc.col sc.row = oldV
      ∧ r₂.2 = [.updateCell sc.row sc.col oldV]
      ∧ r₃.1.matrix sc.col sc.row = newV
      ∧ r₃.2 = [.updateCell sc.row sc.col newV] := by
  obtain ⟨rest, hrest⟩ :=
    pushToHistory_undoStack_cons st (.cell_update sc.col sc.row oldV newV)
  have h₁ := dispatch_commit st sc oldV newV uid hsel hdraft hold hne
  simp only [h₁]
  have h₂ := dispatch_undo_cell
    ({ pushToHistory st (.cell_update sc.col sc.row oldV newV) with
        matrix := matUpdate st.matrix sc.col sc.row newV,
        selectedCell := some { sc with value := newV },
        draftValue := none })
    sc.col sc.row oldV newV rest uid hrest
  simp only [h₂]
  have h₃ := dispatch_redo_cell
    ({ pushToHistory st (.cell_update sc.col sc.row oldV newV) with
        undoStack := rest,
        redoStack := .cell_update sc.col sc.row oldV newV ::
          (pushToHistory st (.cell_update sc.col sc.row oldV newV)).redoStack,
        matrix := matUpdate (matUpdate st.matrix sc.col sc.row newV)
          sc.col sc.row oldV,
        selectedCell := some { sc with value := newV },
        draftValue := none })
    sc.col sc.row oldV newV
    (pushToHistory st (.cell_update sc.col sc.row oldV newV)).redoStack uid rfl
  simp only [h₃]
  refine ⟨?_, trivial, ?_, trivial, ?_, trivial⟩ <;> simp [matUpdate]

/-- C7 witness: the round trip at a concrete one-cell state. -/
theorem undo_redo_round_trip_witness :
    (let st : DispatcherState :=
       ⟨fun _ _ => "old", some ⟨2, 3, "old"⟩, none, some "new", [], []⟩
     let r₁ := dispatch st .COMMIT_CELL "u"
     let r₂ := dispatch r₁.1 .UNDO "u"
     let r₃ := dispatch r₂.1 .REDO "u"
     r₁.1.matrix 3 2 = "new"
       ∧ r₁.2 = [.updateCell 2 3 "new"]
       ∧ r₂.1.matrix 3 2 = "old"
       ∧ r₂.2 = [.updateCell 2 3 "old"]
       ∧ r₃.1.matrix 3 2 = "new"
       ∧ r₃.2 = [.updateCell 2 3 "new"]) :=
  undo_redo_round_trip
    ⟨fun _ _ => "old", some ⟨2, 3, "old"⟩, none, some "new", [], []⟩
    ⟨2, 3, "old"⟩ "old" "new" "u" rfl rfl rfl (by decide)

/-- Every dispatched action preserves the history invariant: actions that
record history go through `pushToHistory` (which enforces the bound and
clears redo), and `UNDO`/`REDO` only move one command between the stacks. -/
theorem histInv_dispatch (st : DispatcherState) (a : SpreadsheetAction)
    (uid : String) (h : histInv st) : histInv (dispatch st a uid).1 := by
  cases a with
  | SELECT_CELL cell =>
    simp only [dispatch]
    cases hsel : st.selectedCell with
    | none => exact h
    | some prev =>
      dsimp only
      by_cases hd : prev.row ≠ cell.row ∨ prev.col ≠ cell.col
      · rw [if_pos hd]
        exact histInv_pushToHistory _ _ h
      · rw [if_neg hd]
        exact h
  | LOCK_CELL pos => exact h
  | UNLOCK_CELL pos => exact h
  | SET_DRAFT_VALUE v => exact h
  | DISCARD_DRAFT => exact h
  | COMMIT_CELL =>
    simp only [dispatch]
    cases hsel : st.selectedCell with
    | none =>
      cases hdv : st.draftValue <;> exact h
    | some sc =>
      cases hdv : st.draftValue with
      | none => exact h
      | some dv =>
        dsimp only
        by_cases hne : st.matrix sc.col sc.row ≠ dv
        · rw [if_pos hne]
          exact histInv_pushToHistory _ _ h
        · rw [if_neg hne]
          exact h
  | UNDO =>
    simp only [dispatch]
    cases hu : st.undoStack with
    | nil => exact h
    | cons cmd rest =>
      unfold histInv at h
      rw [hu, List.length_cons] at h
      cases cmd with
      | cell_update col row ov nv =>
        show rest.length
            + (HistoryCommand.cell_update col row ov nv :: st.redoStack).length
          ≤ MAX_HISTORY_SIZE
        rw [List.length_cons]
        omega
      | selection p n =>
        show rest.length
            + (HistoryCommand.selection p n :: st.redoStack).length
          ≤ MAX_HISTORY_SIZE
        rw [List.length_cons]
        omega
  | REDO =>
    simp only [dispatch]
    cases hr : st.redoStack with
    | nil => exact h
    | cons cmd rest =>
      unfold histInv at h
      rw [hr, List.length_cons] at h
      cases cmd with
      | cell_update col row ov nv =>
        show (HistoryCommand.cell_update col row ov nv :: st.undoStack).length
            + rest.length
          ≤ MAX_HISTORY_SIZE
        rw [List.length_cons]
        omega
      | selection p n =>
        show (HistoryCommand.selection p n :: st.undoStack).length
            + rest.length
          ≤ MAX_HISTORY_SIZE
        rw [List.length_cons]
        omega

theorem histInv_runDispatch (st : DispatcherState)
    (acts : List SpreadsheetAction) (uid : String) (h : histInv st) :
    histInv (runDispatch st acts uid) := by
  induction acts generalizing st with
  | nil => exact h
  | cons a as ih => exact ih _ (histInv_dispatch st a uid h)

/-- C8: the undo stack never exceeds 50 commands — pushing a 51st discards
the oldest — every push empties the redo stack, and the bound and clearing
are preserved by every dispatched action, so any action sequence from a
fresh state keeps the undo stack within the bound. -/
theorem history_bounded_and_redo_cleared :
    (∀ st a uid, histInv st → histInv (dispatch st a uid).1)
    ∧ (∀ st cmd, (pushToHistory st cmd).redoStack = [])
    ∧ (∀ st cmd, st.undoStack.length = MAX_HISTORY_SIZE →
        (pushToHistory st cmd).undoStack = (cmd :: st.undoStack).dropLast)
    ∧ (∀ (m : Nat → Nat → String) sel ll dv uid acts,
        (runDispatch ⟨m, sel, ll, dv, [], []⟩ acts uid).undoStack.length
          ≤ MAX_HISTORY_SIZE) := by
  refine ⟨fun st a uid h => histInv_dispatch st a uid h,
    fun st cmd => pushToHistory_redoStack st cmd, ?_, ?_⟩
  · intro st cmd hlen
    rw [pushToHistory_undoStack,
      if_pos (by rw [List.length_cons, hlen]; omega)]
  · intro m sel ll dv uid acts
    have h := histInv_runDispatch ⟨m, sel, ll, dv, [], []⟩ acts uid
      (by unfold histInv; simp)
    unfold histInv at h
    omega

/-- C8 witness: the invariant-preservation conjunct applied at a concrete
state and action. -/
theorem history_bounded_and_redo_cleared_witness :
    histInv (dispatch ⟨fun _ _ => "", none, none, none, [], []⟩
      .COMMIT_CELL "u").1 :=
  history_bounded_and_redo_cleared.1
    ⟨fun _ _ => "", none, none, none, [], []⟩ .COMMIT_CELL "u"
    (by unfold histInv; simp)

/-- C9: the selection color is a deterministic function of the user name
alone. Two validated `selectCell` requests carrying the same `userName` — on
any connections, against any states, with any user ids — store and broadcast
one and the same color (`getUserColor userName`). -/
theorem selection_color_deterministic (st₁ st₂ : ServerState) (s₁ s₂ : Conn)
    (sid₁ sid₂ uid₁ uid₂ uname : String) (r₁ c₁ r₂ c₂ n₁ n₂ : Nat)
    (hsid₁ : sid₁ ≠ "") (hsid₂ : sid₂ ≠ "") (huid₁ : uid₁ ≠ "")
    (huid₂ : uid₂ ≠ "") (huname : uname ≠ "") :
    let res₁ := serverStep st₁ s₁
      (.selectCell (some sid₁) (some uid₁) (some uname) (some r₁) (some c₁)) n₁
    let res₂ := serverStep st₂ s₂
      (.selectCell (some sid₂) (some uid₂) (some uname) (some r₂) (some c₂)) n₂
    ∃ color,
      hgetAssoc res₁.1.store.selections uid₁ = some ⟨uname, r₁, c₁, color⟩
        ∧ hgetAssoc res₂.1.store.selections uid₂ = some ⟨uname, r₂, c₂, color⟩
        ∧ res₁.2.1 = [⟨.cellSelected uid₁ uname r₁ c₁ color, true⟩]
        ∧ res₂.2.1 = [⟨.cellSelected uid₂ uname r₂ c₂ color, true⟩]
        ∧ res₁.2.2 = broadcastExcept st₁.roomClients s₁.id
            (.cellSelected uid₁ uname r₁ c₁ color)
        ∧ res₂.2.2 = broadcastExcept st₂.roomClients s₂.id
            (.cellSelected uid₂ uname r₂ c₂ color) := by
  have hcond₁ : (truthyStr (some sid₁) && truthyStr (some uid₁)
      && truthyStr (some uname)) = true := by
    simp [truthyStr, hsid₁, huid₁, huname]
  have hcond₂ : (truthyStr (some sid₂) && truthyStr (some uid₂)
      && truthyStr (some uname)) = true := by
    simp [truthyStr, hsid₂, huid₂, huname]
  simp only [serverStep]
  rw [if_pos hcond₁, if_pos hcond₂]
  exact ⟨getUserColor uname, hget_hset_self _ _ _, hget_hset_self _ _ _,
    rfl, rfl, rfl, rfl⟩

/-- C9 witness: two runs with different user ids, rooms, connections and
cells but the same user name get the same stored and broadcast color. -/
theorem selection_color_deterministic_witness :
    (let res₁ := serverStep ⟨⟨[], [], [], []⟩, []⟩ ⟨1, none, none, none, true⟩
       (.selectCell (some "s1") (some "uA") (some "Alice") (some 0) (some 1)) 0
     let res₂ := serverStep
       ⟨⟨[], [], [("uB", ⟨"Old", 9, 9, "x"⟩)], []⟩,
         [⟨7, some "uC", none, some "s2", true⟩]⟩ ⟨2, none, none, none, true⟩
       (.selectCell (some "s2") (some "uB") (some "Alice") (some 3) (some 4)) 1
     ∃ color,
       hgetAssoc res₁.1.store.selections "uA" = some ⟨"Alice", 0, 1, color⟩
         ∧ hgetAssoc res₂.1.store.selections "uB" = some ⟨"Alice", 3, 4, color⟩
         ∧ res₁.2.1 = [⟨.cellSelected "uA" "Alice" 0 1 color, true⟩]
         ∧ res₂.2.1 = [⟨.cellSelected "uB" "Alice" 3 4 color, true⟩]
         ∧ res₁.2.2 = broadcastExcept ([] : List Conn) 1
             (.cellSelected "uA" "Alice" 0 1 color)
         ∧ res₂.2.2 = broadcastExcept [⟨7, some "uC", none, some "s2", true⟩] 2
             (.cellSelected "uB" "Alice" 3 4 color)) :=
  selection_color_deterministic _ _ _ _ "s1" "s2" "uA" "uB" "Alice" 0 1 3 4 0 1
    (by decide) (by decide) (by decide) (by decide) (by decide)

end Spreadsheet
